import Mathlib

/-!
Verification of the SpotifyVsSiriusXM data pipeline.

Shallow embedding of the two source files:
 - src/comparison.py: fetch (`get_stock_data`), persist (`upload_to_rds_per_service`)
   and compare (`compare_companies`);
 - src/database_access.py: the read side (`get_all_data`, `get_data_by_date_range`,
   `get_latest_records`).

Modelling conventions:
 - calendar dates are natural numbers (only their ordering and equality matter);
 - prices (floats in the source) are rationals, so the arithmetic identities of the
   spec can be settled exactly;
 - a pandas DataFrame indexed by date is a `List` of row records carrying the date;
 - pandas `sort_index` and the SQL `ORDER BY date` are embedded with
   `List.insertionSort` by date, a structural sort which the kernel can evaluate:
   only the multiset of rows and the date-sortedness of the result are relied on;
 - fallible code returns `Option` / `Except`, and the two control-flow claims about
   the upload routine (batch abort, connection release) are settled over an explicit
   small-step model of that routine's `try` / `except` / `finally` structure.
-/

namespace SpotSiri

/-- One row of a fetched series table: the columns produced by `get_stock_data`
(src/comparison.py lines 25-44): date index, `Open`, `High`, `Low`, `Close`,
`Volume` (all cast to float by `df.astype(float)`), and the added `Ticker` column. -/
structure PricePoint where
  date : ℕ
  openPrice : ℚ
  high : ℚ
  low : ℚ
  closePrice : ℚ
  volume : ℚ
  ticker : String
deriving DecidableEq

/-- One entry of the provider's "Time Series (Daily)" JSON object, already parsed
to numbers as the source does with `df.astype(float)`: the date key plus the
"1. open" ... "5. volume" fields. -/
structure RawBar where
  date : ℕ
  rawOpen : ℚ
  rawHigh : ℚ
  rawLow : ℚ
  rawClose : ℚ
  rawVolume : ℚ
deriving DecidableEq

/-- Ascending-by-date order on raw provider bars (`df.sort_index(ascending=True)`). -/
def RawBar.asc (a b : RawBar) : Prop := a.date ≤ b.date

instance : DecidableRel RawBar.asc := fun a b => Nat.decLe a.date b.date

instance : IsTotal RawBar RawBar.asc := ⟨fun a b => Nat.le_total a.date b.date⟩

instance : IsTrans RawBar RawBar.asc := ⟨fun _ _ _ => Nat.le_trans⟩

/-- Pure core of `get_stock_data` (src/comparison.py lines 9-48).  The `resp`
argument is the parsed provider response: `none` models a response in which the
"Time Series (Daily)" key is missing (the source prints an error and returns
`None`); `some bars` models the entries of that object.  On the good path the
source builds the frame, sorts it ascending by the date index, keeps the rows
with `start_date <= date <= end_date` (the mask on line 29), renames/casts the
columns, and tags every row with the ticker. -/
def get_stock_data (ticker : String) (startDate endDate : ℕ)
    (resp : Option (List RawBar)) : Option (List PricePoint) :=
  match resp with
  | none => none
  | some bars =>
    let sorted := bars.insertionSort RawBar.asc
    let filtered := sorted.filter (fun b => decide (startDate ≤ b.date) && decide (b.date ≤ endDate))
    some (filtered.map (fun b =>
      { date := b.date, openPrice := b.rawOpen, high := b.rawHigh, low := b.rawLow,
        closePrice := b.rawClose, volume := b.rawVolume, ticker := ticker }))

/-- Forgets the `Ticker` column added by `get_stock_data`, recovering the raw bar. -/
def stripTicker (p : PricePoint) : RawBar :=
  { date := p.date, rawOpen := p.openPrice, rawHigh := p.high, rawLow := p.low,
    rawClose := p.closePrice, rawVolume := p.volume }

/-- The single failure mode of `compare_companies`: when the inner join on date is
empty, `combined['Close_SPOT'].iloc[0]` (src/comparison.py line 128) raises on the
empty frame before anything is returned; the spec's error taxonomy names this
outcome `ComparisonError(EmptyOverlap)`. -/
inductive ComparisonError where
  | EmptyOverlap
deriving DecidableEq

/-- The combined frame built by `compare_companies` together with the metrics it
derives from it: the joined dates, the two close columns (`Close_SPOT`,
`Close_SIRI`), the normalized columns (`SPOT_Norm`, `SIRI_Norm`), the per-series
daily-return columns from `pct_change()`, and the two printed total returns. -/
structure ComparisonTable where
  dates : List ℕ
  closeA : List ℚ
  closeB : List ℚ
  normA : List ℚ
  normB : List ℚ
  retA : List (Option ℚ)
  retB : List (Option ℚ)
  totalA : ℚ
  totalB : ℚ
deriving DecidableEq

/-- The inner join `pd.merge(df1[['Close']], df2[['Close']], left_index=True,
right_index=True)` of src/comparison.py lines 123-125: for each row of `df1`, in
order, one output row `(date, close of df1 row, close of df2 row)` per row of
`df2` carrying the same date. -/
def mergeOnDate (df1 df2 : List PricePoint) : List (ℕ × ℚ × ℚ) :=
  df1.flatMap (fun r =>
    (df2.filter (fun s => decide (s.date = r.date))).map
      (fun s => (r.date, r.closePrice, s.closePrice)))

/-- The normalization of src/comparison.py lines 128-129: every close divided by
the first row's close (`.iloc[0]`), times 100. -/
def normalizeSeries (closes : List ℚ) : List ℚ :=
  closes.map (fun c => c / closes.headD 0 * 100)

/-- Tail of pandas `pct_change()`: each subsequent entry is the change of the
current close relative to the previous one. -/
def pctChangeAux (prev : ℚ) : List ℚ → List (Option ℚ)
  | [] => []
  | c :: rest => some ((c - prev) / prev) :: pctChangeAux c rest

/-- Pandas `pct_change()` on a close column (src/comparison.py line 132): the
first entry is NaN (embedded as `none`), entry `t` for `t > 0` is
`(close[t] - close[t-1]) / close[t-1]`. -/
def pctChange : List ℚ → List (Option ℚ)
  | [] => []
  | c :: rest => none :: pctChangeAux c rest

/-- `compare_companies` (src/comparison.py lines 120-155): inner-join the two
frames on date, normalize each close column by its first joined value, compute
`pct_change()` returns, and report each total return as last normalized value
minus 100 (lines 152-153).  When the join is empty the source raises at
`.iloc[0]`; that outcome is the `EmptyOverlap` error.  The chart and the printed
correlation/volatility are side effects not consumed downstream and are not part
of the returned table. -/
def compare_companies (df1 df2 : List PricePoint) : Except ComparisonError ComparisonTable :=
  let merged := mergeOnDate df1 df2
  if merged = [] then .error .EmptyOverlap
  else
    let closesA := merged.map (fun r => r.2.1)
    let closesB := merged.map (fun r => r.2.2)
    let nA := normalizeSeries closesA
    let nB := normalizeSeries closesB
    .ok { dates := merged.map (fun r => r.1)
          closeA := closesA
          closeB := closesB
          normA := nA
          normB := nB
          retA := pctChange closesA
          retB := pctChange closesB
          totalA := nA.getLastD 0 - 100
          totalB := nB.getLastD 0 - 100 }

/-- The table `compare_companies` builds when the join is non-empty, written out
field by field (used to name the result of a successful comparison). -/
def mergedTable (df1 df2 : List PricePoint) : ComparisonTable :=
  { dates := (mergeOnDate df1 df2).map (fun r => r.1)
    closeA := (mergeOnDate df1 df2).map (fun r => r.2.1)
    closeB := (mergeOnDate df1 df2).map (fun r => r.2.2)
    normA := normalizeSeries ((mergeOnDate df1 df2).map (fun r => r.2.1))
    normB := normalizeSeries ((mergeOnDate df1 df2).map (fun r => r.2.2))
    retA := pctChange ((mergeOnDate df1 df2).map (fun r => r.2.1))
    retB := pctChange ((mergeOnDate df1 df2).map (fun r => r.2.2))
    totalA := (normalizeSeries ((mergeOnDate df1 df2).map (fun r => r.2.1))).getLastD 0 - 100
    totalB := (normalizeSeries ((mergeOnDate df1 df2).map (fun r => r.2.2))).getLastD 0 - 100 }

/-- One row of the store's `stock_data` table, as written by
`upload_to_rds_per_service` (src/comparison.py lines 90-98): the volume is cast
with `int(...)`, which on the non-negative volumes of the data model is the
floor. -/
structure StockRow where
  date : ℕ
  openPrice : ℚ
  high : ℚ
  low : ℚ
  closePrice : ℚ
  volume : ℤ
  ticker : String
deriving DecidableEq

/-- The upsert key of the `stock_data` table: (date, ticker). -/
def rowKey (r : StockRow) : ℕ × String := (r.date, r.ticker)

/-- Decidable test that `s` occupies the key cell `r` is being written to. -/
def sameKey (r s : StockRow) : Bool := decide (s.date = r.date) && decide (s.ticker = r.ticker)

/-- The per-row effect of `ON DUPLICATE KEY UPDATE` on an existing row: a row on
the same (date, ticker) key has its open/high/low/close/volume and ticker columns
overwritten with the incoming values; since the key columns are equal, the result
is the incoming row. -/
def overwriteRow (r s : StockRow) : StockRow := if sameKey r s then r else s

/-- Modelled from the spec: the tabular store's `stock_data(date, open, high,
low, close, volume, ticker)` table with a uniqueness constraint on (date, ticker)
(spec section 6) — the schema itself is not in the repository.  One execution of
the `INSERT ... ON DUPLICATE KEY UPDATE` statement of src/comparison.py lines
79-98: insert the row if its key is absent, else overwrite the columns of the row
holding that key. -/
def upsertRow (store : List StockRow) (r : StockRow) : List StockRow :=
  if store.any (sameKey r) then store.map (overwriteRow r) else store ++ [r]

/-- The committed effect of the row loop of `upload_to_rds_per_service`
(src/comparison.py lines 78-100): each row of the frame is upserted in order,
then the batch is committed. -/
def uploadRows (df : List StockRow) (store : List StockRow) : List StockRow :=
  df.foldl upsertRow store

/-- The cumulative overwrite a batch applies to one already-present store row:
each batch row in turn replaces it when the keys coincide (used to characterize
re-running a batch whose keys are all present). -/
def chainOw (df : List StockRow) (s : StockRow) : StockRow :=
  df.foldl (fun x r => overwriteRow r x) s

/-- What the caller of `upload_to_rds_per_service` can observe of one call, on
the paths where the connection was opened: the durable table after the call, the
rows whose `cursor.execute` completed, the printed log lines, and whether an
exception escaped the call. -/
structure UploadCallResult where
  finalStore : List StockRow
  executedRows : List StockRow
  log : List String
  raisedToCaller : Bool
deriving DecidableEq

/-- The row loop plus `commit` / `except` / `finally` of
`upload_to_rds_per_service` (src/comparison.py lines 78-109), with the rows
already executed accumulated in `buffered`.  `failsOn r = true` models
`cursor.execute` raising `mysql.connector.Error` on row `r`: the loop is
abandoned, `connection.commit()` never runs so the durable table is unchanged,
the `except Error` clause prints the error, and the function then returns
normally — no exception reaches the caller.  When every row executes, `commit`
makes the buffered upserts durable. -/
def runUploadBatch (failsOn : StockRow → Bool) (store buffered : List StockRow) :
    List StockRow → UploadCallResult
  | [] =>
    { finalStore := uploadRows buffered store
      executedRows := buffered
      log := ["Uploaded records", "MySQL connection closed"]
      raisedToCaller := false }
  | r :: rest =>
    if failsOn r then
      { finalStore := store
        executedRows := buffered
        log := ["Error connecting to MySQL", "MySQL connection closed"]
        raisedToCaller := false }
    else runUploadBatch failsOn store (buffered ++ [r]) rest

/-- `upload_to_rds_per_service` (src/comparison.py lines 50-109) on the paths
where the connection was opened, as a function of which rows' `execute` fails. -/
def upload_to_rds_per_service (failsOn : StockRow → Bool) (df store : List StockRow) :
    UploadCallResult :=
  runUploadBatch failsOn store [] df

/-- How one call of `upload_to_rds_per_service` terminates, seen from its caller. -/
inductive CallTermination where
  | normalReturn
  | escapesUnboundLocalError
deriving DecidableEq

/-- Connection lifecycle of `upload_to_rds_per_service` (src/comparison.py lines
63-109).  `connection = mysql.connector.connect(...)` is the first statement of
the `try` block; the `finally` block evaluates `connection.is_connected()` and,
when true, closes cursor and connection.  When `connect` succeeds the call
returns normally and the connection is closed on both the success path and the
caught-`Error` path.  When `connect` itself raises, the local name `connection`
was never bound, so the `finally` block raises `UnboundLocalError`, which escapes
the call (no connection was opened, hence none is closed).  The components are
the termination, whether an opened connection was closed, and the printed log. -/
def uploadConnectionLifecycle (connectOk : Bool) (bodyRaisesError : Bool) :
    CallTermination × Bool × List String :=
  if connectOk then
    if bodyRaisesError then
      (.normalReturn, true, ["Error connecting to MySQL", "MySQL connection closed"])
    else (.normalReturn, true, ["Uploaded records", "MySQL connection closed"])
  else (.escapesUnboundLocalError, false, ["Error connecting to MySQL"])

/-- Descending-by-date order on store rows: the `ORDER BY date DESC` of
src/database_access.py lines 44, 68 and 91. -/
def StockRow.desc (a b : StockRow) : Prop := b.date ≤ a.date

instance : DecidableRel StockRow.desc := fun a b => Nat.decLe b.date a.date

instance : IsTotal StockRow StockRow.desc := ⟨fun a b => (Nat.le_total b.date a.date)⟩

instance : IsTrans StockRow StockRow.desc := ⟨fun _ _ _ h h' => Nat.le_trans h' h⟩

/-- Pure core of `RDSDataAccess.get_all_data` (src/database_access.py lines
34-55), over the rows of the ticker's `stock_data` table: `SELECT date, open,
high, low, close, volume FROM stock_data ORDER BY date DESC`. -/
def get_all_data (table : List StockRow) : List StockRow :=
  table.insertionSort StockRow.desc

/-- Pure core of `RDSDataAccess.get_data_by_date_range` (src/database_access.py
lines 57-79): rows with `date BETWEEN start AND end`, ordered by date descending. -/
def get_data_by_date_range (table : List StockRow) (startDate endDate : ℕ) : List StockRow :=
  (table.filter (fun r => decide (startDate ≤ r.date) && decide (r.date ≤ endDate))).insertionSort
    StockRow.desc

/-- Pure core of `RDSDataAccess.get_latest_records` (src/database_access.py lines
81-103): `ORDER BY date DESC LIMIT days`. -/
def get_latest_records (table : List StockRow) (days : ℕ) : List StockRow :=
  (table.insertionSort StockRow.desc).take days

/-- Concrete series A of the spec's scenario: closes [100, 110, 121] on dates 1, 2, 3. -/
def dfA : List PricePoint :=
  [ { date := 1, openPrice := 100, high := 100, low := 100, closePrice := 100,
      volume := 10, ticker := "SPOT" },
    { date := 2, openPrice := 110, high := 110, low := 110, closePrice := 110,
      volume := 10, ticker := "SPOT" },
    { date := 3, openPrice := 121, high := 121, low := 121, closePrice := 121,
      volume := 10, ticker := "SPOT" } ]

/-- Concrete series B of the spec's scenario: closes [50, 55, 49.5] on the same
dates 1, 2, 3. -/
def dfB : List PricePoint :=
  [ { date := 1, openPrice := 50, high := 50, low := 50, closePrice := 50,
      volume := 20, ticker := "SIRI" },
    { date := 2, openPrice := 55, high := 55, low := 55, closePrice := 55,
      volume := 20, ticker := "SIRI" },
    { date := 3, openPrice := 99 / 2, high := 99 / 2, low := 99 / 2, closePrice := 99 / 2,
      volume := 20, ticker := "SIRI" } ]

/-- Concrete series on dates 4 and 5, date-disjoint from `dfA`. -/
def dfC : List PricePoint :=
  [ { date := 4, openPrice := 7, high := 7, low := 7, closePrice := 7,
      volume := 1, ticker := "SIRI" },
    { date := 5, openPrice := 8, high := 8, low := 8, closePrice := 8,
      volume := 1, ticker := "SIRI" } ]

/-- Concrete provider response covering dates 0..5, listed in a scrambled order
(a JSON object's key order carries no meaning). -/
def exBars : List RawBar :=
  [ { date := 5, rawOpen := 15, rawHigh := 15, rawLow := 15, rawClose := 15, rawVolume := 3 },
    { date := 3, rawOpen := 13, rawHigh := 13, rawLow := 13, rawClose := 13, rawVolume := 3 },
    { date := 0, rawOpen := 10, rawHigh := 10, rawLow := 10, rawClose := 10, rawVolume := 3 },
    { date := 2, rawOpen := 12, rawHigh := 12, rawLow := 12, rawClose := 12, rawVolume := 3 },
    { date := 4, rawOpen := 14, rawHigh := 14, rawLow := 14, rawClose := 14, rawVolume := 3 },
    { date := 1, rawOpen := 11, rawHigh := 11, rawLow := 11, rawClose := 11, rawVolume := 3 } ]

/-- The two rows the fetch of window [1, 2] over `exBars` must return, ascending. -/
def exFetch : List PricePoint :=
  [ { date := 1, openPrice := 11, high := 11, low := 11, closePrice := 11,
      volume := 3, ticker := "SPOT" },
    { date := 2, openPrice := 12, high := 12, low := 12, closePrice := 12,
      volume := 3, ticker := "SPOT" } ]

/-- Concrete store rows for one ticker, dates 1 and 2. -/
def rowS1 : StockRow :=
  { date := 1, openPrice := 10, high := 10, low := 10, closePrice := 10, volume := 5,
    ticker := "SPOT" }

/-- Second concrete store row, date 2. -/
def rowS2 : StockRow :=
  { date := 2, openPrice := 11, high := 11, low := 11, closePrice := 11, volume := 6,
    ticker := "SPOT" }

/-- Third concrete store row, date 3. -/
def rowS3 : StockRow :=
  { date := 3, openPrice := 12, high := 12, low := 12, closePrice := 12, volume := 7,
    ticker := "SPOT" }

/-- A concrete two-row table of the store, ascending by date. -/
def exStore : List StockRow := [rowS1, rowS2]

/-- Failure oracle for the upload batch: `cursor.execute` raises exactly on the
row with date 2. -/
def failOnDate2 : StockRow → Bool := fun r => decide (r.date = 2)

/-- The table `compare_companies` produces for the scenario pair `dfA`, `dfB`. -/
def scenT : ComparisonTable :=
  { dates := [1, 2, 3]
    closeA := [100, 110, 121]
    closeB := [50, 55, 99 / 2]
    normA := [100, 110, 121]
    normB := [100, 110, 99]
    retA := [none, some (1 / 10), some (1 / 10)]
    retB := [none, some (1 / 10), some (-(1 / 10))]
    totalA := 21
    totalB := -1 }

end SpotSiri

namespace SpotSiri

/-- Rows with a date that is in neither one of the rows of `df` survive the
per-date filter of the join. -/
lemma filter_date_eq_nil (df : List PricePoint) (d : ℕ)
    (h : d ∉ df.map PricePoint.date) :
    df.filter (fun s => decide (s.date = d)) = [] := by
  rw [List.filter_eq_nil_iff]
  intro s hs
  simp only [decide_eq_true_eq]
  intro hd
  exact h (List.mem_map.mpr ⟨s, hs, hd⟩)

/-- Under the SeriesTable invariant (no duplicate dates), the per-date filter of
the join yields exactly one row for a date that is present. -/
lemma filter_date_singleton (df : List PricePoint) (d : ℕ)
    (hnd : (df.map PricePoint.date).Nodup) (hd : d ∈ df.map PricePoint.date) :
    ∃ s : PricePoint, df.filter (fun s => decide (s.date = d)) = [s] ∧ s ∈ df ∧ s.date = d := by
  induction df with
  | nil => simp at hd
  | cons a t ih =>
    simp only [List.map_cons, List.nodup_cons] at hnd
    rw [List.map_cons] at hd
    rcases List.mem_cons.mp hd with h1 | h2
    · refine ⟨a, ?_, List.mem_cons_self a t, h1.symm⟩
      rw [List.filter_cons_of_pos (by simp [h1])]
      rw [filter_date_eq_nil t d (h1 ▸ hnd.1)]
    · have hne : ¬ (a.date = d) := fun he => hnd.1 (he ▸ h2)
      obtain ⟨s, hfil, hmem, hdate⟩ := ih hnd.2 h2
      refine ⟨s, ?_, List.mem_cons_of_mem a hmem, hdate⟩
      rw [List.filter_cons_of_neg (by simp [hne])]
      exact hfil

/-- Date column of the inner join: when the right table has no duplicate dates,
it is the left date column restricted to the dates also present on the right. -/
lemma mergeOnDate_dates (df1 df2 : List PricePoint)
    (h2 : (df2.map PricePoint.date).Nodup) :
    (mergeOnDate df1 df2).map (fun r => r.1)
      = (df1.map PricePoint.date).filter (fun d => decide (d ∈ df2.map PricePoint.date)) := by
  induction df1 with
  | nil => rfl
  | cons r t ih =>
    have hgroup : mergeOnDate (r :: t) df2
        = (df2.filter (fun s => decide (s.date = r.date))).map
            (fun s => (r.date, r.closePrice, s.closePrice)) ++ mergeOnDate t df2 := by
      simp [mergeOnDate]
    rw [hgroup, List.map_append, ih, List.map_cons, List.filter_cons]
    by_cases hd : r.date ∈ df2.map PricePoint.date
    · obtain ⟨s, hs, hsmem, hsd⟩ := filter_date_singleton df2 r.date h2 hd
      rw [hs]
      simp [hd]
    · rw [filter_date_eq_nil df2 r.date hd]
      simp [hd]

/-- Successful path of the comparator: with a non-empty join,
`compare_companies` returns the merged table. -/
lemma compare_companies_ok (df1 df2 : List PricePoint)
    (hmne : ¬ (mergeOnDate df1 df2 = [])) :
    compare_companies df1 df2 = .ok (mergedTable df1 df2) := by
  simp [compare_companies, mergedTable, hmne]

/-- C1: for every pair of input series whose date sets are disjoint, the inner
join on date is empty and `compare_companies` fails with
`ComparisonError.EmptyOverlap` (the source reaches `.iloc[0]` on the empty
joined frame) rather than any other outcome. -/
theorem compare_disjoint_emptyOverlap (df1 df2 : List PricePoint)
    (hdisj : ∀ d ∈ df1.map PricePoint.date, d ∉ df2.map PricePoint.date) :
    compare_companies df1 df2 = .error .EmptyOverlap := by
  have hm : mergeOnDate df1 df2 = [] := by
    rw [mergeOnDate, List.flatMap_eq_nil_iff]
    intro r hr
    rw [List.map_eq_nil_iff]
    exact filter_date_eq_nil df2 r.date (hdisj r.date (List.mem_map_of_mem PricePoint.date hr))
  simp [compare_companies, hm]

/-- C1 witness: the theorem applied to the concrete date-disjoint pair `dfA`, `dfC`. -/
theorem compare_disjoint_emptyOverlap_witness :
    compare_companies dfA dfC = .error .EmptyOverlap :=
  compare_disjoint_emptyOverlap dfA dfC (by decide)

/-- C2: for any two input series with no duplicate dates and a non-empty date
intersection, `compare_companies` returns a table whose date column has no
duplicates and contains exactly the dates present in both inputs. -/
theorem compare_dates_exact_intersection (df1 df2 : List PricePoint)
    (h1 : (df1.map PricePoint.date).Nodup) (h2 : (df2.map PricePoint.date).Nodup)
    (hne : ∃ d ∈ df1.map PricePoint.date, d ∈ df2.map PricePoint.date) :
    ∃ t : ComparisonTable, compare_companies df1 df2 = .ok t ∧ t.dates.Nodup ∧
      ∀ d : ℕ, d ∈ t.dates ↔ d ∈ df1.map PricePoint.date ∧ d ∈ df2.map PricePoint.date := by
  have hdates := mergeOnDate_dates df1 df2 h2
  have hmne : ¬ (mergeOnDate df1 df2 = []) := by
    intro h0
    obtain ⟨d, hd1, hd2⟩ := hne
    have hmem : d ∈ (mergeOnDate df1 df2).map (fun r => r.1) := by
      rw [hdates, List.mem_filter]
      exact ⟨hd1, by simpa using hd2⟩
    rw [h0] at hmem
    simp at hmem
  refine ⟨mergedTable df1 df2, compare_companies_ok df1 df2 hmne, ?_, ?_⟩
  · show ((mergeOnDate df1 df2).map (fun r => r.1)).Nodup
    rw [hdates]
    exact h1.filter _
  · intro d
    show d ∈ (mergeOnDate df1 df2).map (fun r => r.1) ↔ _
    rw [hdates, List.mem_filter]
    simp

/-- C2 witness: the theorem applied to the concrete overlapping pair `dfA`, `dfB`. -/
theorem compare_dates_exact_intersection_witness :
    ∃ t : ComparisonTable, compare_companies dfA dfB = .ok t ∧ t.dates.Nodup ∧
      ∀ d : ℕ, d ∈ t.dates ↔ d ∈ dfA.map PricePoint.date ∧ d ∈ dfB.map PricePoint.date :=
  compare_dates_exact_intersection dfA dfB (by decide) (by decide) ⟨1, by decide, by decide⟩

/-- Every left close of the join is the close of some row of the left input. -/
lemma mergeOnDate_mem_closeA (df1 df2 : List PricePoint) (x : ℕ × ℚ × ℚ)
    (hx : x ∈ mergeOnDate df1 df2) : ∃ r ∈ df1, x.2.1 = r.closePrice := by
  rw [mergeOnDate, List.mem_flatMap] at hx
  obtain ⟨r, hr, hx⟩ := hx
  rw [List.mem_map] at hx
  obtain ⟨s, _, rfl⟩ := hx
  exact ⟨r, hr, rfl⟩

/-- Every right close of the join is the close of some row of the right input. -/
lemma mergeOnDate_mem_closeB (df1 df2 : List PricePoint) (x : ℕ × ℚ × ℚ)
    (hx : x ∈ mergeOnDate df1 df2) : ∃ s ∈ df2, x.2.2 = s.closePrice := by
  rw [mergeOnDate, List.mem_flatMap] at hx
  obtain ⟨r, _, hx⟩ := hx
  rw [List.mem_map] at hx
  obtain ⟨s, hs, rfl⟩ := hx
  exact ⟨s, (List.mem_filter.mp hs).1, rfl⟩

/-- Positivity of the input closes transfers to the left close column of the join. -/
lemma mergeOnDate_closeA_pos (df1 df2 : List PricePoint)
    (hpos1 : ∀ p ∈ df1, 0 < p.closePrice) :
    ∀ c ∈ (mergeOnDate df1 df2).map (fun r => r.2.1), 0 < c := by
  intro c hc
  obtain ⟨x, hx, rfl⟩ := List.mem_map.mp hc
  obtain ⟨r, hr, he⟩ := mergeOnDate_mem_closeA df1 df2 x hx
  exact he ▸ hpos1 r hr

/-- Positivity of the input closes transfers to the right close column of the join. -/
lemma mergeOnDate_closeB_pos (df1 df2 : List PricePoint)
    (hpos2 : ∀ p ∈ df2, 0 < p.closePrice) :
    ∀ c ∈ (mergeOnDate df1 df2).map (fun r => r.2.2), 0 < c := by
  intro c hc
  obtain ⟨x, hx, rfl⟩ := List.mem_map.mp hc
  obtain ⟨s, hs, he⟩ := mergeOnDate_mem_closeB df1 df2 x hx
  exact he ▸ hpos2 s hs

/-- A successful comparison forces a non-empty join. -/
lemma compare_ok_ne_nil (df1 df2 : List PricePoint) (t : ComparisonTable)
    (hok : compare_companies df1 df2 = .ok t) : ¬ (mergeOnDate df1 df2 = []) := by
  intro h0
  simp [compare_companies, h0] at hok

/-- A successful comparison returns exactly the merged table. -/
lemma compare_ok_eq (df1 df2 : List PricePoint) (t : ComparisonTable)
    (hok : compare_companies df1 df2 = .ok t) : t = mergedTable df1 df2 := by
  have h := compare_companies_ok df1 df2 (compare_ok_ne_nil df1 df2 t hok)
  rw [h] at hok
  injection hok with h0
  exact h0.symm

/-- Head of the normalization: the first close divided by itself, times 100. -/
lemma normalizeSeries_headD (c0 : ℚ) (cs : List ℚ) (h : c0 ≠ 0) :
    (normalizeSeries (c0 :: cs)).headD 0 = 100 := by
  simp [normalizeSeries, div_self h]

/-- In an ascending list the head is a lower bound. -/
lemma sorted_headD_le (l : List ℕ) (hs : l.Sorted (· ≤ ·)) : ∀ d ∈ l, l.headD 0 ≤ d := by
  cases l with
  | nil => simp
  | cons a s =>
    intro d hd
    rcases List.mem_cons.mp hd with rfl | h
    · simp
    · simpa using List.rel_of_sorted_cons hs d h

/-- C3: in every successful comparison both normalized series are 100 at the
first joined row, and with an ascending left input the first joined date is the
earliest surviving one (every joined date is at least the head), so the base of
the normalization is the close on the earliest joined date rather than on the
earliest date of the unfiltered table. -/
theorem compare_norm_first_is_100 (df1 df2 : List PricePoint) (t : ComparisonTable)
    (hpos1 : ∀ p ∈ df1, 0 < p.closePrice) (hpos2 : ∀ p ∈ df2, 0 < p.closePrice)
    (hsorted1 : (df1.map PricePoint.date).Sorted (· ≤ ·))
    (h2 : (df2.map PricePoint.date).Nodup)
    (hok : compare_companies df1 df2 = .ok t) :
    t.normA.headD 0 = 100 ∧ t.normB.headD 0 = 100 ∧
      ∀ d ∈ t.dates, t.dates.headD 0 ≤ d := by
  have hmne := compare_ok_ne_nil df1 df2 t hok
  obtain rfl := compare_ok_eq df1 df2 t hok
  obtain ⟨m0, ms, hm⟩ := List.exists_cons_of_ne_nil hmne
  refine ⟨?_, ?_, ?_⟩
  · show (normalizeSeries ((mergeOnDate df1 df2).map (fun r => r.2.1))).headD 0 = 100
    rw [hm, List.map_cons]
    refine normalizeSeries_headD _ _ (ne_of_gt ?_)
    exact mergeOnDate_closeA_pos df1 df2 hpos1 m0.2.1
      (by rw [hm, List.map_cons]; exact List.mem_cons_self _ _)
  · show (normalizeSeries ((mergeOnDate df1 df2).map (fun r => r.2.2))).headD 0 = 100
    rw [hm, List.map_cons]
    refine normalizeSeries_headD _ _ (ne_of_gt ?_)
    exact mergeOnDate_closeB_pos df1 df2 hpos2 m0.2.2
      (by rw [hm, List.map_cons]; exact List.mem_cons_self _ _)
  · show ∀ d ∈ (mergeOnDate df1 df2).map (fun r => r.1),
      ((mergeOnDate df1 df2).map (fun r => r.1)).headD 0 ≤ d
    refine sorted_headD_le _ ?_
    rw [mergeOnDate_dates df1 df2 h2]
    exact hsorted1.filter _

/-- The comparator's output on the spec's concrete scenario pair. -/
lemma compare_scenario : compare_companies dfA dfB = .ok scenT := by
  have hmne : ¬ (mergeOnDate dfA dfB = []) := by decide
  rw [compare_companies_ok dfA dfB hmne]
  norm_num [mergedTable, mergeOnDate, dfA, dfB, scenT, normalizeSeries, pctChange, pctChangeAux]

/-- C3 witness: the theorem applied to the concrete scenario pair. -/
theorem compare_norm_first_is_100_witness :
    scenT.normA.headD 0 = 100 ∧ scenT.normB.headD 0 = 100 ∧
      ∀ d ∈ scenT.dates, scenT.dates.headD 0 ≤ d :=
  compare_norm_first_is_100 dfA dfB scenT (by decide) (by norm_num [dfB])
    (by decide) (by decide) compare_scenario

/-- Entry `i + 1` of the tail of `pct_change`: the relative change between the
closes at positions `i` and `i + 1` of the underlying column. -/
lemma pctChangeAux_get? (l : List ℚ) : ∀ (prev : ℚ) (i : ℕ),
    (pctChangeAux prev l).get? i
      = ((prev :: l).get? i).bind (fun p => (l.get? i).map (fun c => some ((c - p) / p))) := by
  induction l with
  | nil =>
    intro prev i
    cases i <;> simp [pctChangeAux]
  | cons c rest ih =>
    intro prev i
    cases i with
    | zero => simp [pctChangeAux]
    | succ j => simpa [pctChangeAux] using ih c j

/-- Entry `i + 1` of `pct_change` in terms of the close column. -/
lemma pctChange_get?_succ (closes : List ℚ) (i : ℕ) :
    (pctChange closes).get? (i + 1)
      = (closes.get? i).bind (fun p => (closes.get? (i + 1)).map (fun c => some ((c - p) / p))) := by
  cases closes with
  | nil => simp [pctChange]
  | cons c rest => simpa [pctChange] using pctChangeAux_get? rest c i

/-- C4: in every successful comparison the first entry of each return column is
absent (pandas `pct_change` leaves NaN there, embedded as `none`), and every
later entry `t` equals `close[t] / close[t-1] - 1`. -/
theorem compare_returns_pct_change (df1 df2 : List PricePoint) (t : ComparisonTable)
    (hpos1 : ∀ p ∈ df1, 0 < p.closePrice) (hpos2 : ∀ p ∈ df2, 0 < p.closePrice)
    (hok : compare_companies df1 df2 = .ok t) :
    t.retA.get? 0 = some none ∧ t.retB.get? 0 = some none ∧
    (∀ i p c, t.closeA.get? i = some p → t.closeA.get? (i + 1) = some c →
        t.retA.get? (i + 1) = some (some (c / p - 1))) ∧
    (∀ i p c, t.closeB.get? i = some p → t.closeB.get? (i + 1) = some c →
        t.retB.get? (i + 1) = some (some (c / p - 1))) := by
  have hmne := compare_ok_ne_nil df1 df2 t hok
  obtain rfl := compare_ok_eq df1 df2 t hok
  obtain ⟨m0, ms, hm⟩ := List.exists_cons_of_ne_nil hmne
  have hA := mergeOnDate_closeA_pos df1 df2 hpos1
  have hB := mergeOnDate_closeB_pos df1 df2 hpos2
  refine ⟨?_, ?_, ?_, ?_⟩
  · show (pctChange ((mergeOnDate df1 df2).map (fun r => r.2.1))).get? 0 = some none
    rw [hm, List.map_cons]
    rfl
  · show (pctChange ((mergeOnDate df1 df2).map (fun r => r.2.2))).get? 0 = some none
    rw [hm, List.map_cons]
    rfl
  · intro i p c hp hc
    show (pctChange ((mergeOnDate df1 df2).map (fun r => r.2.1))).get? (i + 1) = _
    rw [pctChange_get?_succ]
    rw [show ((mergeOnDate df1 df2).map (fun r => r.2.1)).get? i = some p from hp]
    rw [show ((mergeOnDate df1 df2).map (fun r => r.2.1)).get? (i + 1) = some c from hc]
    have hp0 : p ≠ 0 := ne_of_gt (hA p (List.get?_mem hp))
    simp [sub_div, div_self hp0]
  · intro i p c hp hc
    show (pctChange ((mergeOnDate df1 df2).map (fun r => r.2.2))).get? (i + 1) = _
    rw [pctChange_get?_succ]
    rw [show ((mergeOnDate df1 df2).map (fun r => r.2.2)).get? i = some p from hp]
    rw [show ((mergeOnDate df1 df2).map (fun r => r.2.2)).get? (i + 1) = some c from hc]
    have hp0 : p ≠ 0 := ne_of_gt (hB p (List.get?_mem hp))
    simp [sub_div, div_self hp0]

/-- C4 witness: the last return of series A in the concrete scenario is
121 / 110 - 1. -/
theorem compare_returns_pct_change_witness :
    scenT.retA.get? 2 = some (some ((121 : ℚ) / 110 - 1)) :=
  (compare_returns_pct_change dfA dfB scenT (by decide) (by norm_num [dfB])
    compare_scenario).2.2.1 1 110 121 rfl rfl

/-- C5: in every successful comparison the reported total return of each series
is its last normalized value minus 100; on the spec's concrete scenario (closes
[100, 110, 121] against [50, 55, 49.5] on three shared dates) the comparator
produces normalized columns [100, 110, 121] and [100, 110, 99], total returns 21
and -1 (in percent), and return columns [_, 10 percent, 10 percent] and
[_, 10 percent, -10 percent]. -/
theorem compare_total_return :
    (∀ (df1 df2 : List PricePoint) (t : ComparisonTable),
        compare_companies df1 df2 = .ok t →
          t.totalA = t.normA.getLastD 0 - 100 ∧ t.totalB = t.normB.getLastD 0 - 100) ∧
    compare_companies dfA dfB = .ok scenT ∧
    scenT.normA = [100, 110, 121] ∧ scenT.normB = [100, 110, 99] ∧
    scenT.totalA = 21 ∧ scenT.totalB = -1 ∧
    scenT.retA = [none, some (1 / 10), some (1 / 10)] ∧
    scenT.retB = [none, some (1 / 10), some (-(1 / 10))] := by
  refine ⟨?_, compare_scenario, rfl, rfl, rfl, rfl, rfl, rfl⟩
  intro df1 df2 t hok
  obtain rfl := compare_ok_eq df1 df2 t hok
  exact ⟨rfl, rfl⟩

/-- C5 witness: the total-return identity instantiated on the scenario table. -/
theorem compare_total_return_witness :
    scenT.totalA = scenT.normA.getLastD 0 - 100 ∧
      scenT.totalB = scenT.normB.getLastD 0 - 100 :=
  compare_total_return.1 dfA dfB scenT compare_total_return.2.1

/-- Shape of a successful fetch: sort the parsed bars ascending, keep the window,
tag the ticker. -/
lemma fetch_out_eq (ticker : String) (s e : ℕ) (bars : List RawBar) (out : List PricePoint)
    (hout : get_stock_data ticker s e (some bars) = some out) :
    out = ((bars.insertionSort RawBar.asc).filter
        (fun b => decide (s ≤ b.date) && decide (b.date ≤ e))).map
      (fun b => { date := b.date, openPrice := b.rawOpen, high := b.rawHigh, low := b.rawLow,
                  closePrice := b.rawClose, volume := b.rawVolume, ticker := ticker }) := by
  have h := hout
  simp only [get_stock_data] at h
  exact (Option.some.inj h).symm

/-- A successful fetch returns, up to order, exactly the response rows inside
the requested window. -/
lemma fetch_perm (ticker : String) (s e : ℕ) (bars : List RawBar) (out : List PricePoint)
    (hout : get_stock_data ticker s e (some bars) = some out) :
    (out.map stripTicker).Perm
      (bars.filter (fun b => decide (s ≤ b.date) && decide (b.date ≤ e))) := by
  rw [fetch_out_eq ticker s e bars out hout, List.map_map]
  rw [show (stripTicker ∘ fun b : RawBar =>
      ({ date := b.date, openPrice := b.rawOpen, high := b.rawHigh, low := b.rawLow,
         closePrice := b.rawClose, volume := b.rawVolume, ticker := ticker } : PricePoint)) = id
    from funext (fun b => rfl)]
  rw [List.map_id]
  exact (List.perm_insertionSort RawBar.asc bars).filter _

/-- A successful fetch is sorted ascending by date. -/
lemma fetch_sorted (ticker : String) (s e : ℕ) (bars : List RawBar) (out : List PricePoint)
    (hout : get_stock_data ticker s e (some bars) = some out) :
    (out.map PricePoint.date).Sorted (· ≤ ·) := by
  rw [fetch_out_eq ticker s e bars out hout, List.map_map]
  refine List.Pairwise.map _ ?_ ((List.sorted_insertionSort RawBar.asc bars).filter _)
  intro a b h
  exact h

/-- A successful fetch tags every row with the requested ticker. -/
lemma fetch_ticker (ticker : String) (s e : ℕ) (bars : List RawBar) (out : List PricePoint)
    (hout : get_stock_data ticker s e (some bars) = some out) :
    ∀ p ∈ out, p.ticker = ticker := by
  rw [fetch_out_eq ticker s e bars out hout]
  intro p hp
  obtain ⟨b, _, rfl⟩ := List.mem_map.mp hp
  rfl

/-- A successful fetch has no duplicate dates when the response has none. -/
lemma fetch_nodup (ticker : String) (s e : ℕ) (bars : List RawBar) (out : List PricePoint)
    (hnd : (bars.map RawBar.date).Nodup)
    (hout : get_stock_data ticker s e (some bars) = some out) :
    (out.map PricePoint.date).Nodup := by
  rw [fetch_out_eq ticker s e bars out hout, List.map_map]
  have hperm : ((bars.insertionSort RawBar.asc).map RawBar.date).Perm (bars.map RawBar.date) :=
    (List.perm_insertionSort RawBar.asc bars).map RawBar.date
  have hsortnd : ((bars.insertionSort RawBar.asc).map RawBar.date).Nodup :=
    (hperm.nodup_iff).mpr hnd
  have hsub : (((bars.insertionSort RawBar.asc).filter
      (fun b => decide (s ≤ b.date) && decide (b.date ≤ e))).map RawBar.date).Sublist
      ((bars.insertionSort RawBar.asc).map RawBar.date) :=
    (List.filter_sublist _).map RawBar.date
  exact hsortnd.sublist hsub

/-- C6: for every provider response with the expected structure, the fetch
returns exactly the response rows whose date lies in the requested window (as a
permutation after dropping the added ticker tag), sorted ascending by date, with
every returned row tagged with the requested symbol; concretely, the window
[1, 2] over a response covering dates 0..5 yields exactly the rows for dates 1
and 2, ascending. -/
theorem fetch_window_exact (ticker : String) (s e : ℕ) (bars : List RawBar)
    (out : List PricePoint)
    (hout : get_stock_data ticker s e (some bars) = some out) :
    (out.map stripTicker).Perm
        (bars.filter (fun b => decide (s ≤ b.date) && decide (b.date ≤ e))) ∧
    (out.map PricePoint.date).Sorted (· ≤ ·) ∧
    (∀ p ∈ out, p.ticker = ticker) ∧
    get_stock_data "SPOT" 1 2 (some exBars) = some exFetch :=
  ⟨fetch_perm ticker s e bars out hout, fetch_sorted ticker s e bars out hout,
    fetch_ticker ticker s e bars out hout, by decide⟩

/-- C6 witness: the theorem applied to the concrete scenario fetch. -/
theorem fetch_window_exact_witness :
    ((exFetch.map stripTicker).Perm
        (exBars.filter (fun b => decide (1 ≤ b.date) && decide (b.date ≤ 2))) ∧
      (exFetch.map PricePoint.date).Sorted (· ≤ ·) ∧
      (∀ p ∈ exFetch, p.ticker = "SPOT") ∧
      get_stock_data "SPOT" 1 2 (some exBars) = some exFetch) :=
  fetch_window_exact "SPOT" 1 2 exBars exFetch (by decide)

/-- The read side returns rows sorted descending by date. -/
lemma get_all_data_sorted (table : List StockRow) :
    ((get_all_data table).map StockRow.date).Sorted (· ≥ ·) := by
  refine List.Pairwise.map _ ?_ (List.sorted_insertionSort StockRow.desc table)
  intro a b h
  exact h

/-- The read side preserves the store's key uniqueness: no duplicate dates. -/
lemma get_all_data_nodup (table : List StockRow)
    (hnd : (table.map StockRow.date).Nodup) :
    ((get_all_data table).map StockRow.date).Nodup :=
  (((List.perm_insertionSort StockRow.desc table).map StockRow.date).nodup_iff).mpr hnd

/-- The windowed read returns rows sorted descending by date. -/
lemma get_data_by_date_range_sorted (table : List StockRow) (s e : ℕ) :
    ((get_data_by_date_range table s e).map StockRow.date).Sorted (· ≥ ·) := by
  refine List.Pairwise.map _ ?_ (List.sorted_insertionSort StockRow.desc _)
  intro a b h
  exact h

/-- The windowed read has no duplicate dates when the store has none. -/
lemma get_data_by_date_range_nodup (table : List StockRow) (s e : ℕ)
    (hnd : (table.map StockRow.date).Nodup) :
    ((get_data_by_date_range table s e).map StockRow.date).Nodup := by
  refine (((List.perm_insertionSort StockRow.desc _).map StockRow.date).nodup_iff).mpr ?_
  exact hnd.sublist ((List.filter_sublist table).map StockRow.date)

/-- The latest-records read returns rows sorted descending by date. -/
lemma get_latest_records_sorted (table : List StockRow) (days : ℕ) :
    ((get_latest_records table days).map StockRow.date).Sorted (· ≥ ·) := by
  have h := get_all_data_sorted table
  rw [get_all_data] at h
  rw [get_latest_records, List.map_take]
  exact h.sublist (List.take_sublist days _)

/-- The latest-records read has no duplicate dates when the store has none. -/
lemma get_latest_records_nodup (table : List StockRow) (days : ℕ)
    (hnd : (table.map StockRow.date).Nodup) :
    ((get_latest_records table days).map StockRow.date).Nodup := by
  have h := get_all_data_nodup table hnd
  rw [get_all_data] at h
  rw [get_latest_records, List.map_take]
  exact h.sublist (List.take_sublist days _)

/-- C7 counterexample: the claim says every produced series table is ordered
ascending by date, but `get_all_data` runs `ORDER BY date DESC`: on the
two-row store with dates 1 and 2 it returns the dates as [2, 1], which is not
ascending. -/
theorem seriesTable_ascending_counterexample :
    (get_all_data exStore).map StockRow.date = [2, 1] ∧
      ¬ ((get_all_data exStore).map StockRow.date).Sorted (· ≤ ·) := by
  constructor
  · decide
  · decide

/-- C7 amended: the fetch produces an ascending, duplicate-free series, while
the three read-side retrievals (`get_all_data`, `get_data_by_date_range`,
`get_latest_records`) produce series sorted descending by date (`ORDER BY date
DESC`), duplicate-free given the store's per-(date, ticker) uniqueness. -/
theorem seriesTable_order_amended (ticker : String) (s e days : ℕ)
    (bars : List RawBar) (out : List PricePoint) (table : List StockRow)
    (hnb : (bars.map RawBar.date).Nodup) (hnt : (table.map StockRow.date).Nodup)
    (hout : get_stock_data ticker s e (some bars) = some out) :
    ((out.map PricePoint.date).Sorted (· ≤ ·) ∧ (out.map PricePoint.date).Nodup) ∧
    (((get_all_data table).map StockRow.date).Sorted (· ≥ ·) ∧
      ((get_all_data table).map StockRow.date).Nodup) ∧
    (((get_data_by_date_range table s e).map StockRow.date).Sorted (· ≥ ·) ∧
      ((get_data_by_date_range table s e).map StockRow.date).Nodup) ∧
    (((get_latest_records table days).map StockRow.date).Sorted (· ≥ ·) ∧
      ((get_latest_records table days).map StockRow.date).Nodup) :=
  ⟨⟨fetch_sorted ticker s e bars out hout, fetch_nodup ticker s e bars out hnb hout⟩,
    ⟨get_all_data_sorted table, get_all_data_nodup table hnt⟩,
    ⟨get_data_by_date_range_sorted table s e, get_data_by_date_range_nodup table s e hnt⟩,
    ⟨get_latest_records_sorted table days, get_latest_records_nodup table days hnt⟩⟩

/-- C7 amended witness: the amended theorem at the concrete response and store. -/
theorem seriesTable_order_amended_witness :
    (((exFetch.map PricePoint.date).Sorted (· ≤ ·) ∧ (exFetch.map PricePoint.date).Nodup) ∧
      (((get_all_data exStore).map StockRow.date).Sorted (· ≥ ·) ∧
        ((get_all_data exStore).map StockRow.date).Nodup) ∧
      (((get_data_by_date_range exStore 1 2).map StockRow.date).Sorted (· ≥ ·) ∧
        ((get_data_by_date_range exStore 1 2).map StockRow.date).Nodup) ∧
      (((get_latest_records exStore 1).map StockRow.date).Sorted (· ≥ ·) ∧
        ((get_latest_records exStore 1).map StockRow.date).Nodup)) :=
  seriesTable_order_amended "SPOT" 1 2 1 exBars exFetch exStore
    (by decide) (by decide) (by decide)

/-- The key-match test succeeds exactly on rows holding the incoming row's key. -/
lemma sameKey_iff (r s : StockRow) : sameKey r s = true ↔ rowKey s = rowKey r := by
  simp [sameKey, rowKey, Prod.ext_iff]

/-- Overwriting preserves the key of the overwritten row. -/
lemma rowKey_overwriteRow (r s : StockRow) : rowKey (overwriteRow r s) = rowKey s := by
  rw [overwriteRow]
  by_cases h : sameKey r s = true
  · rw [if_pos h]
    exact ((sameKey_iff r s).mp h).symm
  · rw [if_neg h]

/-- An overwrite pass leaves the key column of the store unchanged. -/
lemma keys_map_overwrite (r : StockRow) (store : List StockRow) :
    (store.map (overwriteRow r)).map rowKey = store.map rowKey := by
  rw [List.map_map]
  exact List.map_congr_left (fun s _ => rowKey_overwriteRow r s)

/-- The duplicate-key test of the upsert is key membership. -/
lemma any_sameKey_iff (r : StockRow) (store : List StockRow) :
    store.any (sameKey r) = true ↔ rowKey r ∈ store.map rowKey := by
  rw [List.any_eq_true]
  constructor
  · rintro ⟨s, hs, hk⟩
    exact List.mem_map.mpr ⟨s, hs, (sameKey_iff r s).mp hk⟩
  · intro h
    obtain ⟨s, hs, hk⟩ := List.mem_map.mp h
    exact ⟨s, hs, (sameKey_iff r s).mpr hk⟩

/-- Upserting into a store with unique keys keeps the keys unique. -/
lemma upsertRow_keys_nodup (store : List StockRow) (r : StockRow)
    (h : (store.map rowKey).Nodup) : ((upsertRow store r).map rowKey).Nodup := by
  rw [upsertRow]
  by_cases ha : store.any (sameKey r) = true
  · rw [if_pos ha, keys_map_overwrite]
    exact h
  · rw [if_neg ha, List.map_append]
    have hnot : rowKey r ∉ store.map rowKey := fun hc => ha ((any_sameKey_iff r store).mpr hc)
    simp [List.nodup_append, h, hnot]

/-- Upserting never loses a key already present. -/
lemma upsertRow_keys_superset (store : List StockRow) (r : StockRow) :
    ∀ k ∈ store.map rowKey, k ∈ (upsertRow store r).map rowKey := by
  intro k hk
  rw [upsertRow]
  by_cases ha : store.any (sameKey r) = true
  · rw [if_pos ha, keys_map_overwrite]
    exact hk
  · rw [if_neg ha, List.map_append]
    exact List.mem_append_left _ hk

/-- After an upsert the upserted key is present. -/
lemma upsertRow_key_mem (store : List StockRow) (r : StockRow) :
    rowKey r ∈ (upsertRow store r).map rowKey := by
  rw [upsertRow]
  by_cases ha : store.any (sameKey r) = true
  · rw [if_pos ha, keys_map_overwrite]
    exact (any_sameKey_iff r store).mp ha
  · rw [if_neg ha, List.map_append]
    exact List.mem_append_right _ (by simp)

/-- A batch never loses keys already present in the store. -/
lemma uploadRows_keys_superset (df : List StockRow) :
    ∀ store : List StockRow, ∀ k ∈ store.map rowKey, k ∈ (uploadRows df store).map rowKey := by
  induction df with
  | nil => intro store k hk; exact hk
  | cons r rest ih =>
    intro store k hk
    exact ih (upsertRow store r) k (upsertRow_keys_superset store r k hk)

/-- After a batch every key of the batch is present in the store. -/
lemma uploadRows_keys_contains (df : List StockRow) :
    ∀ store : List StockRow, ∀ r ∈ df, rowKey r ∈ (uploadRows df store).map rowKey := by
  induction df with
  | nil => intro store r hr; simp at hr
  | cons a rest ih =>
    intro store r hr
    rcases List.mem_cons.mp hr with rfl | hmem
    · exact uploadRows_keys_superset rest (upsertRow store r) _ (upsertRow_key_mem store r)
    · exact ih (upsertRow store a) r hmem

/-- A batch keeps the keys of a unique-key store unique. -/
lemma uploadRows_keys_nodup (df : List StockRow) :
    ∀ store : List StockRow, (store.map rowKey).Nodup →
      ((uploadRows df store).map rowKey).Nodup := by
  induction df with
  | nil => intro store h; exact h
  | cons r rest ih =>
    intro store h
    exact ih (upsertRow store r) (upsertRow_keys_nodup store r h)

/-- Folding the batch's overwrites, one row at a time. -/
lemma chainOw_cons (r : StockRow) (df : List StockRow) (s : StockRow) :
    chainOw (r :: df) s = chainOw df (overwriteRow r s) := rfl

/-- The cumulative overwrite preserves the row's key. -/
lemma rowKey_chainOw (df : List StockRow) :
    ∀ s : StockRow, rowKey (chainOw df s) = rowKey s := by
  induction df with
  | nil => intro s; rfl
  | cons r rest ih =>
    intro s
    rw [chainOw_cons, ih, rowKey_overwriteRow]

/-- Upserting a row whose key is present is a pure overwrite pass. -/
lemma upsertRow_of_mem_keys (store : List StockRow) (r : StockRow)
    (h : rowKey r ∈ store.map rowKey) :
    upsertRow store r = store.map (overwriteRow r) := by
  rw [upsertRow, if_pos ((any_sameKey_iff r store).mpr h)]

/-- A batch whose keys are all present only overwrites: it is the pointwise
cumulative overwrite of the store. -/
lemma uploadRows_all_present (df : List StockRow) :
    ∀ store : List StockRow, (∀ r ∈ df, rowKey r ∈ store.map rowKey) →
      uploadRows df store = store.map (chainOw df) := by
  induction df with
  | nil =>
    intro store _
    show store = store.map (chainOw [])
    have h0 : store.map (chainOw []) = store.map id := List.map_congr_left (fun s _ => rfl)
    rw [h0, List.map_id]
  | cons r rest ih =>
    intro store hall
    show uploadRows rest (upsertRow store r) = _
    rw [upsertRow_of_mem_keys store r (hall r (List.mem_cons_self r rest))]
    rw [ih (store.map (overwriteRow r))
      (by
        intro x hx
        rw [keys_map_overwrite]
        exact hall x (List.mem_cons_of_mem r hx))]
    rw [List.map_map]
    exact List.map_congr_left (fun s _ => rfl)

/-- The image of a store row under the batch's cumulative overwrite is in the
store the batch produces. -/
lemma chainOw_mem_uploadRows (df : List StockRow) :
    ∀ (store : List StockRow) (x : StockRow), x ∈ store →
      chainOw df x ∈ uploadRows df store := by
  induction df with
  | nil => intro store x hx; exact hx
  | cons r rest ih =>
    intro store x hx
    rw [chainOw_cons]
    show chainOw rest (overwriteRow r x) ∈ uploadRows rest (upsertRow store r)
    apply ih
    rw [upsertRow]
    by_cases ha : store.any (sameKey r) = true
    · rw [if_pos ha]
      exact List.mem_map_of_mem _ hx
    · rw [if_neg ha]
      have hk : ¬ (sameKey r x = true) := by
        intro hq
        have hxe := (sameKey_iff r x).mp hq
        exact ha ((any_sameKey_iff r store).mpr (hxe ▸ List.mem_map_of_mem rowKey hx))
      rw [overwriteRow, if_neg hk]
      exact List.mem_append_left _ hx

/-- The upserted row itself appears in the store the upsert produces. -/
lemma mem_upsertRow_self (store : List StockRow) (r : StockRow) :
    r ∈ upsertRow store r := by
  rw [upsertRow]
  by_cases ha : store.any (sameKey r) = true
  · rw [if_pos ha]
    obtain ⟨s, hs, hk⟩ := List.any_eq_true.mp ha
    have hov : overwriteRow r s = r := by rw [overwriteRow, if_pos hk]
    have hmem := List.mem_map_of_mem (overwriteRow r) hs
    rwa [hov] at hmem
  · rw [if_neg ha]
    exact List.mem_append_right _ (by simp)

/-- In a unique-key store, rows are determined by their key. -/
lemma nodup_keys_unique (L : List StockRow) (h : (L.map rowKey).Nodup)
    (a b : StockRow) (ha : a ∈ L) (hb : b ∈ L) (hk : rowKey a = rowKey b) : a = b :=
  List.inj_on_of_nodup_map h ha hb hk

/-- Every row of the store a batch produces over a unique-key store is a
fixpoint of the batch's cumulative overwrite: it already holds the last write. -/
lemma chainOw_fixpoint (df : List StockRow) :
    ∀ store : List StockRow, (store.map rowKey).Nodup →
      ∀ s ∈ uploadRows df store, chainOw df s = s := by
  induction df with
  | nil => intro store _ s _; rfl
  | cons r rest ih =>
    intro store hnd s hs
    rw [chainOw_cons]
    have hs' : s ∈ uploadRows rest (upsertRow store r) := hs
    have hnd' : ((upsertRow store r).map rowKey).Nodup := upsertRow_keys_nodup store r hnd
    by_cases hk : sameKey r s = true
    · have hors : overwriteRow r s = r := by rw [overwriteRow, if_pos hk]
      rw [hors]
      have hcm : chainOw rest r ∈ uploadRows rest (upsertRow store r) :=
        chainOw_mem_uploadRows rest _ r (mem_upsertRow_self store r)
      have hndU : ((uploadRows rest (upsertRow store r)).map rowKey).Nodup :=
        uploadRows_keys_nodup rest _ hnd'
      have hkeys : rowKey (chainOw rest r) = rowKey s := by
        rw [rowKey_chainOw]
        exact ((sameKey_iff r s).mp hk).symm
      exact nodup_keys_unique _ hndU _ _ hcm hs' hkeys
    · have hors : overwriteRow r s = s := by rw [overwriteRow, if_neg hk]
      rw [hors]
      exact ih (upsertRow store r) hnd' s hs'

/-- A batch in which no row fails buffers every row and commits them all. -/
lemma runUploadBatch_nofail (df : List StockRow) :
    ∀ store buffered : List StockRow,
      runUploadBatch (fun _ => false) store buffered df =
        { finalStore := uploadRows (buffered ++ df) store
          executedRows := buffered ++ df
          log := ["Uploaded records", "MySQL connection closed"]
          raisedToCaller := false } := by
  induction df with
  | nil => intro store buffered; simp [runUploadBatch]
  | cons r rest ih =>
    intro store buffered
    show runUploadBatch (fun _ => false) store (buffered ++ [r]) rest = _
    rw [ih store (buffered ++ [r])]
    simp

/-- C8: persisting to the store sink is idempotent.  Over a store with unique
(date, ticker) keys, a batch keeps the keys unique (exactly one row per key),
makes every written key present, and re-running the identical batch changes
nothing; the committed effect of a failure-free call of
`upload_to_rds_per_service` is exactly that batch. -/
theorem upload_idempotent (df store : List StockRow)
    (h : (store.map rowKey).Nodup) :
    ((uploadRows df store).map rowKey).Nodup ∧
    (∀ r ∈ df, rowKey r ∈ (uploadRows df store).map rowKey) ∧
    uploadRows df (uploadRows df store) = uploadRows df store ∧
    (upload_to_rds_per_service (fun _ => false) df store).finalStore = uploadRows df store := by
  refine ⟨uploadRows_keys_nodup df store h, uploadRows_keys_contains df store, ?_, ?_⟩
  · rw [uploadRows_all_present df (uploadRows df store) (uploadRows_keys_contains df store)]
    have hfix : (uploadRows df store).map (chainOw df) = (uploadRows df store).map id :=
      List.map_congr_left (fun s hs => chainOw_fixpoint df store h s hs)
    rw [hfix, List.map_id]
  · rw [upload_to_rds_per_service, runUploadBatch_nofail df store []]
    rfl

/-- C8 witness: the theorem applied to the concrete two-row batch over the
empty store. -/
theorem upload_idempotent_witness :
    ((uploadRows [rowS1, rowS2] []).map rowKey).Nodup ∧
    (∀ r ∈ [rowS1, rowS2], rowKey r ∈ (uploadRows [rowS1, rowS2] []).map rowKey) ∧
    uploadRows [rowS1, rowS2] (uploadRows [rowS1, rowS2] []) = uploadRows [rowS1, rowS2] [] ∧
    (upload_to_rds_per_service (fun _ => false) [rowS1, rowS2] []).finalStore
      = uploadRows [rowS1, rowS2] [] :=
  upload_idempotent [rowS1, rowS2] [] (by decide)

/-- C9 counterexample: on a concrete batch whose second row's upsert fails, no
exception reaches the caller and the call's log carries only the printed error
message — the `except Error` clause prints and the function returns normally, so
the failure is not surfaced to the caller (the claim's "surfaced to the caller"
is false; a successful call is indistinguishable to the caller). -/
theorem upload_error_not_surfaced :
    (upload_to_rds_per_service failOnDate2 [rowS1, rowS2, rowS3] exStore).raisedToCaller = false ∧
    (upload_to_rds_per_service (fun _ => false) [rowS1, rowS2, rowS3] exStore).raisedToCaller = false ∧
    (upload_to_rds_per_service failOnDate2 [rowS1, rowS2, rowS3] exStore).log
      = ["Error connecting to MySQL", "MySQL connection closed"] := by
  refine ⟨rfl, ?_, rfl⟩
  rw [upload_to_rds_per_service, runUploadBatch_nofail]

/-- A batch with a failing row runs exactly the rows before it. -/
lemma runUploadBatch_fail (failsOn : StockRow → Bool) (store : List StockRow)
    (bad : StockRow) (post : List StockRow) (hbad : failsOn bad = true) :
    ∀ pre buffered : List StockRow, (∀ r ∈ pre, failsOn r = false) →
      runUploadBatch failsOn store buffered (pre ++ bad :: post) =
        { finalStore := store
          executedRows := buffered ++ pre
          log := ["Error connecting to MySQL", "MySQL connection closed"]
          raisedToCaller := false } := by
  intro pre
  induction pre with
  | nil =>
    intro buffered _
    show runUploadBatch failsOn store buffered (bad :: post) = _
    rw [runUploadBatch, if_pos hbad]
    simp
  | cons a rest ih =>
    intro buffered hpre
    show runUploadBatch failsOn store buffered (a :: (rest ++ bad :: post)) = _
    rw [runUploadBatch, if_neg (by rw [hpre a (List.mem_cons_self a rest)]; simp)]
    rw [ih (buffered ++ [a]) (fun r hr => hpre r (List.mem_cons_of_mem a hr))]
    simp

/-- C9 amended: a failure on one row's upsert abandons the remaining rows of the
batch (they are never executed), the batch is not committed so the durable store
is unchanged, and the error is printed to the log but then swallowed: the call
returns normally and the caller receives no programmatic error indication. -/
theorem upload_row_failure_aborts (failsOn : StockRow → Bool)
    (store pre post : List StockRow) (bad : StockRow)
    (hpre : ∀ r ∈ pre, failsOn r = false) (hbad : failsOn bad = true) :
    (upload_to_rds_per_service failsOn (pre ++ bad :: post) store).finalStore = store ∧
    (upload_to_rds_per_service failsOn (pre ++ bad :: post) store).executedRows = pre ∧
    (upload_to_rds_per_service failsOn (pre ++ bad :: post) store).raisedToCaller = false ∧
    "Error connecting to MySQL" ∈ (upload_to_rds_per_service failsOn (pre ++ bad :: post) store).log := by
  rw [upload_to_rds_per_service, runUploadBatch_fail failsOn store bad post hbad pre [] hpre]
  refine ⟨rfl, by simp, rfl, by simp⟩

/-- C9 amended witness: the amended theorem on the concrete batch failing at its
second row. -/
theorem upload_row_failure_aborts_witness :
    (upload_to_rds_per_service failOnDate2 ([rowS1] ++ rowS2 :: [rowS3]) exStore).finalStore
      = exStore ∧
    (upload_to_rds_per_service failOnDate2 ([rowS1] ++ rowS2 :: [rowS3]) exStore).executedRows
      = [rowS1] ∧
    (upload_to_rds_per_service failOnDate2 ([rowS1] ++ rowS2 :: [rowS3]) exStore).raisedToCaller
      = false ∧
    "Error connecting to MySQL"
      ∈ (upload_to_rds_per_service failOnDate2 ([rowS1] ++ rowS2 :: [rowS3]) exStore).log :=
  upload_row_failure_aborts failOnDate2 exStore [rowS1] [rowS3] rowS2 (by decide) (by decide)

/-- C10: the claim that the connection is released on every exit path with no
exception escaping the release path fails on the connection-failure path: when
`mysql.connector.connect` raises, `upload_to_rds_per_service`'s `finally` block
evaluates `connection.is_connected()` with the local `connection` unbound,
raising an UnboundLocalError that escapes the call.  On the paths where the
connection was opened, the call returns normally and the connection is closed. -/
theorem connection_release_unbound_local :
    uploadConnectionLifecycle false false
      = (CallTermination.escapesUnboundLocalError, false, ["Error connecting to MySQL"]) ∧
    uploadConnectionLifecycle true false
      = (CallTermination.normalReturn, true, ["Uploaded records", "MySQL connection closed"]) ∧
    uploadConnectionLifecycle true true
      = (CallTermination.normalReturn, true,
          ["Error connecting to MySQL", "MySQL connection closed"]) :=
  ⟨rfl, rfl, rfl⟩

end SpotSiri
